import Mathlib

/-!
Verification development for the geo_qa crawler / question-answering program
(src/geo_qa.py). Python strings are modelled as `List Char`; Python numbers
produced by `get_first_num` (which returns `int(n)` or a `float`) are modelled
exactly with `PyNum` over `ℤ`/`ℚ` (the decimal values this program handles are
exactly representable, so the rational model is faithful). Python regular
expressions used by the program are embedded as the deterministic scanners the
specific patterns denote.
-/

/-! ### Name normalizer (geo_qa.py lines 36-41)

Python `str.replace(old, new)` rewrites non-overlapping occurrences left to
right; it is embedded with a fuel argument (fuel = length of the string always
suffices because every step consumes at least one character), keeping the
definition structurally recursive so that the kernel can evaluate it. -/

def pyReplaceAux (o : Char) (os new : List Char) : Nat → List Char → List Char
  | _, [] => []
  | 0, l => l
  | f + 1, c :: s =>
    if (o :: os).isPrefixOf (c :: s) then
      new ++ pyReplaceAux o os new f (s.drop os.length)
    else
      c :: pyReplaceAux o os new f s

/-- Python `s.replace(o :: os, new)`. -/
def pyReplace (o : Char) (os new s : List Char) : List Char :=
  pyReplaceAux o os new s.length s

/-- `format_name_to_ont` (line 36): `string.replace(" ", "_")`. -/
def format_name_to_ont (s : List Char) : List Char :=
  pyReplace ' ' [] ['_'] s

/-- The substring after the last slash: Python `string.rpartition("/")[-1]`
(the whole string when no slash occurs). -/
def afterLastSlash (s : List Char) : List Char :=
  (s.reverse.takeWhile (fun c => c ≠ '/')).reverse

/-- `format_name_from_ont` (line 40): `string.rpartition("/")[-1].replace("_", " ")`. -/
def format_name_from_ont (s : List Char) : List Char :=
  pyReplace '_' [] [' '] (afterLastSlash s)

/-- The ASCII whitespace characters removed by Python `str.strip()` and
matched by `str.isspace` (space, tab, newline, carriage return, vertical
tab, form feed). -/
def isPySpace (c : Char) : Bool :=
  c = ' ' || c = '\t' || c = '\n' || c = '\r' || c.toNat = 11 || c.toNat = 12

/-- Python `str.strip()`: drop whitespace from both ends. -/
def pyStrip (l : List Char) : List Char :=
  ((l.dropWhile isPySpace).reverse.dropWhile isPySpace).reverse

/-! ### Numeric parser `get_first_num` (geo_qa.py lines 54-77) -/

/-- A Python number as returned by `get_first_num`: `int(n)` when the parsed
float is integral, otherwise the float itself (modelled exactly as a
rational). -/
inductive PyNum where
  | int (n : ℤ)
  | dec (q : ℚ)
deriving DecidableEq

/-- Value of a string of decimal digit characters (what Python `float`/`int`
compute on the digit substrings handled here). -/
def digitsVal (l : List Char) : ℕ :=
  l.foldl (fun a c => 10 * a + (c.toNat - 48)) 0

/-- Python `float(t)` on a cleaned match `digits(.digits)?`, followed by
`int(n) if n.is_integer() else n`: the value is integral exactly when the
fractional digits are absent or all zero. -/
def floatOfCleaned (t : List Char) : PyNum :=
  let ip := t.takeWhile (fun c => c ≠ '.')
  let fp := (t.dropWhile (fun c => c ≠ '.')).drop 1
  if fp.all (fun c => c = '0') then .int (digitsVal ip)
  else .dec (mkRat (digitsVal ip * 10 ^ fp.length + digitsVal fp) (10 ^ fp.length))

/-- The greedy scanner for `((sep\d{3})*)`: repeatedly consume a separator
followed by exactly three digits; returns the consumed text and the rest. -/
def sepGroups (sep : Char) : List Char → List Char × List Char
  | a :: b :: c :: d :: rest =>
    if a = sep ∧ b.isDigit ∧ c.isDigit ∧ d.isDigit then
      let (g, r) := sepGroups sep rest
      (a :: b :: c :: d :: g, r)
    else ([], a :: b :: c :: d :: rest)
  | l => ([], l)

/-- The greedy scanner for `(dc\d+)?`: a decimal mark followed by at least
one digit, taking as many digits as possible; empty when absent. -/
def decSuffix (dc : Char) (s : List Char) : List Char :=
  match s with
  | a :: b :: rest =>
    if a = dc ∧ b.isDigit then a :: b :: rest.takeWhile Char.isDigit else []
  | _ => []

/-- The anchored regex `^\d{1,3}((sep\d{3})*)(dc\d+)?` of lines 63 and 69,
with Python greedy-match semantics (no backtracking is ever needed because
everything after the leading digits is optional): returns the matched text,
or `none` when the string does not start with a digit. -/
def matchNum (sep dc : Char) (s : List Char) : Option (List Char) :=
  let d1 := (s.takeWhile Char.isDigit).take 3
  if d1.isEmpty then none
  else
    let r1 := s.drop d1.length
    let (g, r2) := sepGroups sep r1
    some (d1 ++ g ++ decSuffix dc r2)

/-- `get_first_num` (lines 54-77): skip to the first digit; try the
comma-grouped pattern (strip commas, parse); else the dot-grouped pattern
(strip dots, comma becomes decimal point); else the first digit run of the
comma-stripped text; `none` when no digit exists. -/
def get_first_num (s : List Char) : Option PyNum :=
  let s1 := s.dropWhile (fun c => !c.isDigit)
  if s1.isEmpty then none
  else
    match matchNum ',' '.' s1 with
    | some m => some (floatOfCleaned (m.filter (fun c => c ≠ ',')))
    | none =>
      match matchNum '.' ',' s1 with
      | some m =>
        some (floatOfCleaned
          ((m.filter (fun c => c ≠ '.')).map (fun c => if c = ',' then '.' else c)))
      | none =>
        let u := (s1.filter (fun c => c ≠ ',')).dropWhile (fun c => !c.isDigit)
        let run := u.takeWhile Char.isDigit
        if run.isEmpty then none else some (.int (digitsVal run))

/-! ### Question routing (geo_qa.py lines 361-418, 588-596) -/

/-- `re.sub(' +', ' ', question)` (line 590): every run of space characters
becomes a single space (only the space character, not other whitespace). -/
def collapseSpaces : List Char → List Char
  | [] => []
  | [c] => [c]
  | a :: b :: s =>
    if a = ' ' ∧ b = ' ' then collapseSpaces (b :: s)
    else a :: collapseSpaces (b :: s)

/-- No two adjacent characters are both spaces. -/
def noDoubleSpace : List Char → Bool
  | a :: b :: t => !(a = ' ' && b = ' ') && noDoubleSpace (b :: t)
  | _ => true

/-- The two shapes of patterns in `QUESTIONS`: a literal prefix, one greedy
capture `(.+)`, and a literal tail (`cap1`), or the Q12 shape with two
captures, the second optional: `pre (.+) mid (.+)? suf` (`cap2opt`). -/
inductive QPat where
  | cap1 (pre suf : List Char)
  | cap2opt (pre mid suf : List Char)

/-- The ordered `QUESTIONS` pattern list (lines 361-418). -/
def QUESTIONS : List QPat := [
  .cap1 ("Who is the president of ".toList) ("?".toList),
  .cap1 ("Who is the prime minister of ".toList) ("?".toList),
  .cap1 ("What is the population of ".toList) ("?".toList),
  .cap1 ("What is the area of ".toList) ("?".toList),
  .cap1 ("What is the form of government in ".toList) ("?".toList),
  .cap1 ("What is the capital of ".toList) ("?".toList),
  .cap1 ("When was the president of ".toList) (" born?".toList),
  .cap1 ("Where was the president of ".toList) (" born?".toList),
  .cap1 ("When was the prime minister of ".toList) (" born?".toList),
  .cap1 ("Where was the prime minister of ".toList) (" born?".toList),
  .cap1 ("Who is ".toList) ("?".toList),
  .cap2opt ("How many ".toList) (" are also ".toList) ("?".toList),
  .cap1 ("List all countries whose capital name contains the string ".toList) [],
  .cap1 ("How many presidents were born in ".toList) ("?".toList)]

/-- Regex `.` matches any character except a newline. -/
def dotChar (c : Char) : Bool := c ≠ '\n'

/-- Whether `re.match(pattern, s)` succeeds (anchored at the start only; text
may follow the match). For these patterns a match exists exactly when the
string splits as the literal pieces around nonempty (resp. possibly empty for
the optional capture) newline-free captured segments. -/
def qmatches : QPat → List Char → Bool
  | .cap1 pre suf, s =>
    pre.isPrefixOf s &&
      (let t := s.drop pre.length
       (List.range (t.length + 1)).any (fun p =>
         decide (1 ≤ p) && (t.take p).all dotChar && suf.isPrefixOf (t.drop p)))
  | .cap2opt pre mid suf, s =>
    pre.isPrefixOf s &&
      (let t := s.drop pre.length
       (List.range (t.length + 1)).any (fun p =>
         decide (1 ≤ p) && (t.take p).all dotChar &&
           (let u := t.drop p
            mid.isPrefixOf u &&
              (let v := u.drop mid.length
               (List.range (v.length + 1)).any (fun q =>
                 (v.take q).all dotChar && suf.isPrefixOf (v.drop q))))))

/-- The preprocessing of `qna` (lines 589-590): `strip()` then
`re.sub(' +', ' ', ...)`. -/
def qna_normalize (q : List Char) : List Char :=
  collapseSpaces (pyStrip q)

/-- The routing of `qna` (lines 591-595): the index of the first pattern in
`QUESTIONS` matching the normalized question, `none` when no pattern matches
(the `Don't know` outcome). -/
def qna_route (q : List Char) : Option ℕ :=
  QUESTIONS.findIdx? (fun p => qmatches p (qna_normalize q))

/-- Modelled from the spec: the claimed preprocessing collapses every internal
run of whitespace (not only spaces) to a single space. Used only to compare
the claim against the implemented `qna_normalize`. -/
def collapseWsClaim : List Char → List Char
  | [] => []
  | [c] => [c]
  | a :: b :: s =>
    if isPySpace a ∧ isPySpace b then collapseWsClaim (b :: s)
    else (if isPySpace a then ' ' else a) :: collapseWsClaim (b :: s)

/-- Modelled from the spec: trim, then collapse internal whitespace runs. -/
def normalize_question_claim (q : List Char) : List Char :=
  collapseWsClaim (pyStrip q)

/-! ### Answer rendering (geo_qa.py lines 427-585)

The graph-query engine is an external collaborator; `answer_render` embeds
what `answer` does with the result list `ent` returned by `graph.query`
(lines 567-585), including the exceptions Python raises there. -/

/-- The Python exceptions reachable from the rendering code: `IndexError`
from `ent[0]` / `row[0]` on an empty list, `ValueError` from formatting a
non-number with `"{:,}"` or unpacking a row that is not a pair, and the
unbound-variable error when `question_num` selects no branch. -/
inductive PyErr where
  | indexError
  | valueError
  | nameError
deriving DecidableEq

/-- A value in a query-result row: a graph node URI, a plain literal, or a
numeric literal (whose `toPython()` is a number). -/
inductive QVal where
  | uri (s : List Char)
  | str (s : List Char)
  | num (n : PyNum)

/-- Decimal digits of the fractional part of a nonnegative rational below 1
(fuel-bounded; the literals this program stores are decimal fractions, for
which the expansion is exact and terminates within the fuel). -/
def ratFracDigits : ℕ → ℚ → List Char
  | 0, _ => []
  | f + 1, q =>
    if q = 0 then []
    else
      let d := (q * 10).floor
      Char.ofNat (48 + d.toNat) :: ratFracDigits f (q * 10 - (d : ℚ))

/-- Decimal rendering of an integer, as Python `str`. -/
def intStr (n : ℤ) : List Char :=
  if n < 0 then '-' :: Nat.toDigits 10 n.natAbs else Nat.toDigits 10 n.toNat

/-- `str(x)` of a `PyNum` (Python prints floats with a decimal point). -/
def pyNumStr : PyNum → List Char
  | .int n => intStr n
  | .dec q =>
    let sg : List Char := if q < 0 then ['-'] else []
    let a := |q|
    let fd := ratFracDigits 17 (a - (a.floor : ℚ))
    sg ++ Nat.toDigits 10 a.floor.toNat ++ '.' :: (if fd.isEmpty then ['0'] else fd)

/-- The string Python's `str()` exposes for a query-result value. -/
def strOfQVal : QVal → List Char
  | .uri s => s
  | .str s => s
  | .num n => pyNumStr n

/-- Insert thousands separators into a reversed digit string. -/
def group3 : List Char → List Char
  | a :: b :: c :: d :: rest => a :: b :: c :: ',' :: group3 (d :: rest)
  | l => l

/-- `"{:,}".format(n)` for a natural number. -/
def natCommaStr (n : ℕ) : List Char :=
  (group3 (Nat.toDigits 10 n).reverse).reverse

/-- `"{:,}".format(x)` for a `PyNum`: thousands separators in the integer
part, fractional digits unchanged. -/
def pyNumCommaFormat : PyNum → List Char
  | .int n => if n < 0 then '-' :: natCommaStr n.natAbs else natCommaStr n.toNat
  | .dec q =>
    let sg : List Char := if q < 0 then ['-'] else []
    let a := |q|
    let fd := ratFracDigits 17 (a - (a.floor : ℚ))
    sg ++ natCommaStr a.floor.toNat ++ '.' :: (if fd.isEmpty then ['0'] else fd)

/-- Lexicographic comparison of strings by code point (Python `<` on `str`). -/
def pyStrLt : List Char → List Char → Bool
  | [], [] => false
  | [], _ :: _ => true
  | _ :: _, [] => false
  | a :: as, b :: bs => if a = b then pyStrLt as bs else decide (a.toNat < b.toNat)

def pyStrLe (a b : List Char) : Bool :=
  pyStrLt a b || decide (a = b)

/-- Insertion step of Python `list.sort()` on strings. -/
def pyInsert (x : List Char) : List (List Char) → List (List Char)
  | [] => [x]
  | y :: ys => if pyStrLe x y then x :: y :: ys else y :: pyInsert x ys

/-- Python `list.sort()` on strings (stability is irrelevant here because
equal string keys are identical). -/
def pySort : List (List Char) → List (List Char)
  | [] => []
  | x :: xs => pyInsert x (pySort xs)

/-- Python `str.capitalize()`: first character uppercased, the rest
lowercased (ASCII model). -/
def pyCapitalize : List Char → List Char
  | [] => []
  | c :: s => c.toUpper :: s.map Char.toLower

/-- `ent[0]` of a row list followed by `row[0]`: the first cell of the first
row, or the `IndexError` Python raises. -/
def firstCell : List QVal → Except PyErr (List Char)
  | [] => .error .indexError
  | v :: _ => .ok (strOfQVal v)

/-- The `"{:,}".format(ent[0][0].toPython())` branches (question kinds 2 and
3): `IndexError` on an empty result, `ValueError` when the value is not a
number. -/
def numFormatFirst (ent : List (List QVal)) (tail : List Char) :
    Except PyErr (List Char) :=
  match ent with
  | [] => .error .indexError
  | row :: _ =>
    match row with
    | [] => .error .indexError
    | v :: _ =>
      match v with
      | .num n => .ok (pyNumCommaFormat n ++ tail)
      | _ => .error .valueError

/-- The `f"... of ..."` cell for question kind 10; the row must unpack as a
pair `r, c`. -/
def roleCell : List QVal → Except PyErr (List Char)
  | [r, c] =>
    .ok (pyCapitalize (format_name_from_ont (strOfQVal r)) ++ " of ".toList ++
      format_name_from_ont (strOfQVal c))
  | _ => .error .valueError

/-- The result-rendering tail of `answer` (lines 567-585), for the result
list `ent` the query returned: kinds 0,1,5,6,7,8,9 read `ent[0][0]` and
display a name; 2 and 3 format `ent[0][0]` as a number (3 with a unit
suffix); 4 and 12 sort and comma-join all first cells; 10 sorts and joins
role descriptions; 11 and 13 print the row count. -/
def answer_render (qnum : ℕ) (ent : List (List QVal)) : Except PyErr (List Char) :=
  if qnum ∈ ([0, 1, 5, 6, 7, 8, 9] : List ℕ) then
    match ent with
    | [] => .error .indexError
    | row :: _ => (firstCell row).map format_name_from_ont
  else if qnum = 2 then numFormatFirst ent []
  else if qnum = 3 then numFormatFirst ent (" km squared".toList)
  else if qnum ∈ ([4, 12] : List ℕ) then
    (ent.mapM (fun row => (firstCell row).map format_name_from_ont)).map
      (fun xs => List.intercalate (", ".toList) (pySort xs))
  else if qnum = 10 then
    (ent.mapM roleCell).map (fun xs => List.intercalate (", ".toList) (pySort xs))
  else if qnum ∈ ([11, 13] : List ℕ) then .ok (Nat.toDigits 10 ent.length)
  else .error .nameError

/-! ### Birth-country resolution (geo_qa.py lines 128-144, 312-347)

The document tree is external; the `Born` infobox cell is embedded as the
link targets and text fragments the two xpath calls of `check_born_country`
retrieve from it (`none` when the page has no `Born` row). -/

/-- The `Born` cell of a person infobox: its hyperlink targets and its text
fragments, in document order. -/
structure BornField where
  links : List (List Char)
  texts : List (List Char)

/-- The link-derived candidates (line 133-137): `link.rpartition("/")[-1]`
for each hyperlink. -/
def linkCandidates (b : BornField) : List (List Char) :=
  b.links.map afterLastSlash

/-- The text-derived candidates (lines 138-144): fragments containing an
ASCII letter, with commas removed, stripped, spaces replaced by
underscores. -/
def textCandidates (b : BornField) : List (List Char) :=
  (b.texts.filter (fun t => t.any Char.isAlpha)).map
    (fun t => format_name_to_ont (pyStrip (t.filter (fun c => c ≠ ','))))

/-- All candidate birth-country identifiers, in the order
`check_born_country` examines them (links first, then text fragments). -/
def bornCandidates : Option BornField → List (List Char)
  | none => []
  | some b => linkCandidates b ++ textCandidates b

/-- `check_born_country(infobox)` (lines 128-144) against registry `R`
(`list_of_countries`): the first link candidate in the registry, else the
first text candidate in the registry, else `None` (the implicit Python
return). -/
def check_born_country (R : List (List Char)) (born : Option BornField) :
    Option (List Char) :=
  match born with
  | none => none
  | some b =>
    match (linkCandidates b).find? (fun c => decide (c ∈ R)) with
    | some c => some c
    | none => (textCandidates b).find? (fun c => decide (c ∈ R))

/-- The birth-place assertion of `parse_person` (lines 317-322, 344-347): the
object of the `birthPlace` triple it adds, or `none` when it adds none. The
guard is Python `if bcountry not in (None, "None")`, and the asserted node is
`DBPEDIA_BASE + format_name_to_ont(bcountry)` (the base prefix is constant
and omitted). -/
def parse_person_birthPlace (R : List (List Char)) (born : Option BornField) :
    Option (List Char) :=
  match check_born_country R born with
  | none => none
  | some c => if c = "None".toList then none else some (format_name_to_ont c)

/-! ### Crawl scheduler (geo_qa.py lines 147-203) -/

/-- The three handlers a task can carry (`start_parser`, `parse_state`,
`parse_person`), as a tag. -/
inductive HandlerTag where
  | startTag
  | stateTag
  | personTag
deriving DecidableEq

/-- A queued crawl task: url, handler, opaque metadata (the Python dict,
modelled as an association list). -/
structure CrawlTask where
  url : List Char
  handler : HandlerTag
  meta : List (List Char × List Char)
deriving DecidableEq

/-- The scheduler state: the FIFO work queue and the visited set (insertion
at the head; only membership matters). -/
structure CrawlerState where
  queue : List CrawlTask
  visited : List (List Char)
deriving DecidableEq

/-- `Crawler.__init__` (lines 150-152). -/
def crawlerInit : CrawlerState :=
  { queue := [], visited := [] }

/-- `Crawler.enqueue_page` (lines 187-203): a no-op when the url is already
visited; otherwise mark visited and push one task. -/
def enqueue_page (st : CrawlerState) (url : List Char) (h : HandlerTag)
    (meta : List (List Char × List Char)) : CrawlerState :=
  if url ∈ st.visited then st
  else { queue := st.queue ++ [⟨url, h, meta⟩], visited := url :: st.visited }

/-- Number of tasks in a queue carrying a given url. -/
def urlCount (q : List CrawlTask) (u : List Char) : ℕ :=
  (q.filter (fun t => decide (t.url = u))).length

/-- The queue invariant: no two queued tasks share a url, and every queued
url is already marked visited. -/
def QueueInv (st : CrawlerState) : Prop :=
  (st.queue.map (fun t => t.url)).Nodup ∧ ∀ t ∈ st.queue, t.url ∈ st.visited

/-- A log line `Error running task: url` plus the printed exception. -/
structure LogEntry where
  url : List Char
  msg : List Char
deriving DecidableEq

/-- The outcome of fetching and handling one task: normal completion with the
resulting state, or an exception raised after partially updating the state
(the `except` branch of `Crawler.run`). -/
inductive HandlerOutcome where
  | ok (st : CrawlerState)
  | err (st : CrawlerState) (msg : List Char)

/-- One iteration of the `Crawler.run` loop (lines 158-165): pop the front
task, run download+handler on the remaining state; an exception is caught,
the url and error are logged, and the loop continues. `none` exactly when
the queue is empty (the loop exit). -/
def run_step (H : CrawlerState → CrawlTask → HandlerOutcome) (st : CrawlerState)
    (log : List LogEntry) : Option (CrawlerState × List LogEntry) :=
  match st.queue with
  | [] => none
  | t :: rest =>
    match H { st with queue := rest } t with
    | .ok st2 => some (st2, log)
    | .err st2 e => some (st2, log ++ [⟨t.url, e⟩])

/-- The `while not self.queue.empty()` loop, fuel-bounded (handlers may
enqueue, so the Lean model runs the loop for any given number of
iterations; the loop exits as soon as the queue is empty). -/
def run_loop (H : CrawlerState → CrawlTask → HandlerOutcome) :
    ℕ → CrawlerState → List LogEntry → CrawlerState × List LogEntry
  | 0, st, log => (st, log)
  | f + 1, st, log =>
    match run_step H st log with
    | none => (st, log)
    | some (st2, log2) => run_loop H f st2 log2

/-! ### Triple store persistence (geo_qa.py lines 350-353, 421-424)

Modelled from the spec: `create` serializes the graph with
`g.serialize("graph.nt", format="nt")` and `load_graph` re-parses it with
`g.parse("graph.nt", format="nt")`; the serializer and parser themselves are
rdflib library code outside src/. The spec describes the format as one
triple per line in subject-predicate-object notation, identifiers as full
URIs in angle brackets, literals quoted (N-Triples); the embedding below
follows that description, with the standard N-Triples string escapes. -/

/-- An object node: a URI, or a literal with an optional datatype URI (the
program stores plain literals and `xsd`-typed literals). -/
inductive NTNode where
  | uri (s : List Char)
  | lit (s : List Char) (dt : Option (List Char))
deriving DecidableEq

/-- A stored triple; subjects and predicates are always URIs in this
program (`add_to_graph` wraps every non-URI in a `URIRef`). -/
structure NTTriple where
  subj : List Char
  pred : List Char
  obj : NTNode
deriving DecidableEq

/-- N-Triples escaping of one literal character. -/
def ntEscapeChar (c : Char) : List Char :=
  if c = '\\' then ['\\', '\\']
  else if c = '"' then ['\\', '"']
  else if c = '\n' then ['\\', 'n']
  else if c = '\r' then ['\\', 'r']
  else if c = '\t' then ['\\', 't']
  else [c]

/-- N-Triples escaping of a literal body. -/
def ntEscape (s : List Char) : List Char :=
  (s.map ntEscapeChar).flatten

/-- The character named by an N-Triples escape sequence. -/
def unescChar (c : Char) : Option Char :=
  if c = '\\' then some '\\'
  else if c = '"' then some '"'
  else if c = 'n' then some '\n'
  else if c = 'r' then some '\r'
  else if c = 't' then some '\t'
  else none

/-- Scan a quoted literal body up to the closing quote, undoing escapes;
returns the body and the text after the closing quote. -/
def ntUnescape : List Char → Option (List Char × List Char)
  | [] => none
  | c :: s =>
    if c = '"' then some ([], s)
    else if c = '\\' then
      match s with
      | [] => none
      | d :: s2 =>
        match unescChar d with
        | none => none
        | some e =>
          match ntUnescape s2 with
          | none => none
          | some (t, r) => some (e :: t, r)
    else
      match ntUnescape s with
      | none => none
      | some (t, r) => some (c :: t, r)

/-- Serialized form of an object node. -/
def ntNodeStr : NTNode → List Char
  | .uri s => '<' :: s ++ ['>']
  | .lit s dt =>
    '"' :: ntEscape s ++ ['"'] ++
      (match dt with
       | none => []
       | some d => '^' :: '^' :: '<' :: d ++ ['>'])

/-- One serialized line: `<subj> <pred> obj .`. -/
def ntLine (t : NTTriple) : List Char :=
  ('<' :: t.subj ++ ['>', ' ']) ++ ('<' :: t.pred ++ ['>', ' ']) ++
    ntNodeStr t.obj ++ [' ', '.']

/-- The serialized file: one line per triple, newline-terminated. -/
def nt_serialize (T : List NTTriple) : List Char :=
  (T.map (fun t => ntLine t ++ ['\n'])).flatten

/-- Parse `<uri>` at the front; returns the URI body and the rest. -/
def parseUriTok (s : List Char) : Option (List Char × List Char) :=
  match s with
  | '<' :: s2 =>
    let u := s2.takeWhile (fun c => c ≠ '>')
    match s2.dropWhile (fun c => c ≠ '>') with
    | '>' :: r => some (u, r)
    | _ => none
  | _ => none

/-- Parse an object node at the front: a URI, or a quoted literal with an
optional `^^<datatype>` suffix. -/
def parseObjTok (s : List Char) : Option (NTNode × List Char) :=
  match s with
  | '<' :: _ =>
    (match parseUriTok s with
     | none => none
     | some (u, r) => some (.uri u, r))
  | '"' :: s2 =>
    (match ntUnescape s2 with
     | none => none
     | some (body, r) =>
       match r with
       | '^' :: '^' :: r2 =>
         (match parseUriTok r2 with
          | none => none
          | some (d, r3) => some (.lit body (some d), r3))
       | _ => some (.lit body none, r))
  | _ => none

/-- Parse one serialized line back into a triple. -/
def ntParseLine (l : List Char) : Option NTTriple :=
  match parseUriTok l with
  | none => none
  | some (su, r1) =>
    match r1 with
    | ' ' :: r2 =>
      (match parseUriTok r2 with
       | none => none
       | some (pu, r3) =>
         match r3 with
         | ' ' :: r4 =>
           (match parseObjTok r4 with
            | none => none
            | some (ob, r5) =>
              if r5 = [' ', '.'] then some ⟨su, pu, ob⟩ else none)
         | _ => none)
    | _ => none

/-- Fuel-bounded line-by-line parse of a serialized file (blank lines are
skipped; any malformed line fails the whole parse, as rdflib raises). Every
step consumes at least one character, so fuel = length suffices. -/
def parseNTFuel : ℕ → List Char → Option (List NTTriple)
  | _, [] => some []
  | 0, _ => none
  | f + 1, c :: s =>
    let line := (c :: s).takeWhile (fun x => x ≠ '\n')
    let rest := ((c :: s).dropWhile (fun x => x ≠ '\n')).drop 1
    if line.isEmpty then parseNTFuel f rest
    else
      match ntParseLine line with
      | none => none
      | some t =>
        match parseNTFuel f rest with
        | none => none
        | some ts => some (t :: ts)

/-- `load_graph`: parse the persisted file back into a triple list. -/
def nt_parse (s : List Char) : Option (List NTTriple) :=
  parseNTFuel s.length s

/-- A URI the line-based format can carry: no closing angle bracket and no
newline inside the URI text. -/
def uriOk (s : List Char) : Bool :=
  s.all (fun c => c ≠ '>' && c ≠ '\n')

def nodeOk : NTNode → Bool
  | .uri s => uriOk s
  | .lit _ dt =>
    match dt with
    | none => true
    | some d => uriOk d

/-- Well-formedness of a triple for serialization: its URIs carry no `>` and
no newline (literal bodies are unrestricted; they are escaped). -/
def tripleOk (t : NTTriple) : Bool :=
  uriOk t.subj && uriOk t.pred && nodeOk t.obj

/-! ## Helper lemmas -/

/-- Single-character `str.replace` is a character map. -/
theorem pyReplaceAux_single (o n : Char) (s : List Char) :
    ∀ f, s.length ≤ f →
      pyReplaceAux o [] [n] f s = s.map (fun c => if c = o then n else c) := by
  induction s with
  | nil => intro f _; cases f <;> rfl
  | cons c s ih =>
    intro f h
    cases f with
    | zero => simp at h
    | succ f =>
      have hf : s.length ≤ f := by simpa using h
      by_cases hc : o = c
      · subst hc
        simp [pyReplaceAux, List.isPrefixOf, ih f hf]
      · have hbeq : (o == c) = false := beq_eq_false_iff_ne.mpr hc
        have hco : ¬ c = o := fun h2 => hc h2.symm
        simp [pyReplaceAux, List.isPrefixOf, hbeq, ih f hf, hco]

theorem format_name_to_ont_eq_map (s : List Char) :
    format_name_to_ont s = s.map (fun c => if c = ' ' then '_' else c) :=
  pyReplaceAux_single ' ' '_' s s.length le_rfl

/-- The first element surviving `dropWhile` fails the predicate. -/
theorem dropWhile_headD_false (p : Char → Bool) (l : List Char)
    (h : l.dropWhile p ≠ []) : p ((l.dropWhile p).headD 'x') = false := by
  induction l with
  | nil => simp at h
  | cons c s ih =>
    by_cases hp : p c
    · rw [List.dropWhile_cons_of_pos hp] at h ⊢
      exact ih h
    · rw [List.dropWhile_cons_of_neg hp]
      simpa using hp

/-- `matchNum` succeeds on any string starting with a digit. -/
theorem matchNum_isSome_of_digit (sep dc c : Char) (t : List Char)
    (h : c.isDigit = true) : (matchNum sep dc (c :: t)).isSome = true := by
  simp only [matchNum, List.takeWhile_cons, h]
  simp [List.take_succ_cons]

/-! ## Claims -/

/-- Claim C1. The numeric parser on the spec vectors. Four of the five hold;
on `"1.234.567"` the code returns the float `1.234` (the comma-grouping
regex of line 63 matches `"1.234"`, so the dot-grouping branch of line 69 is
unreachable), not the integer `1234567` the spec requires. -/
theorem c1_numeric_parser_vectors :
    get_first_num ("1,234,567".toList) = some (.int 1234567) ∧
    get_first_num ("12.5 km²".toList) = some (.dec (mkRat 25 2)) ∧
    get_first_num ("population: 83".toList) = some (.int 83) ∧
    get_first_num ("n/a".toList) = none ∧
    get_first_num ("1.234.567".toList) = some (.dec (mkRat 617 500)) ∧
    get_first_num ("1.234.567".toList) ≠ some (.int 1234567) := by
  refine ⟨?_, ?_, ?_, ?_, ?_, ?_⟩ <;> decide

/-- Claim C2 (counterexample). For the routed question kind 0 (`Who is the
president of X?`), an empty query result makes `answer` raise `IndexError`
at `ent[0]` rather than print a no-answer indicator. -/
theorem c2_counterexample :
    answer_render 0 [] = Except.error PyErr.indexError := rfl

/-- Claim C2 (amended). On an empty result set, the list- and count-style
kinds (4, 10, 11, 12, 13) render without an exception (an empty string or
`0`), while every kind that reads `ent[0][0]` (0, 1, 2, 3, 5, 6, 7, 8, 9)
raises `IndexError`. -/
theorem c2_empty_result_rendering :
    answer_render 0 [] = Except.error PyErr.indexError ∧
    answer_render 1 [] = Except.error PyErr.indexError ∧
    answer_render 2 [] = Except.error PyErr.indexError ∧
    answer_render 3 [] = Except.error PyErr.indexError ∧
    answer_render 5 [] = Except.error PyErr.indexError ∧
    answer_render 6 [] = Except.error PyErr.indexError ∧
    answer_render 7 [] = Except.error PyErr.indexError ∧
    answer_render 8 [] = Except.error PyErr.indexError ∧
    answer_render 9 [] = Except.error PyErr.indexError ∧
    answer_render 4 [] = Except.ok [] ∧
    answer_render 10 [] = Except.ok [] ∧
    answer_render 12 [] = Except.ok [] ∧
    answer_render 11 [] = Except.ok ['0'] ∧
    answer_render 13 [] = Except.ok ['0'] :=
  ⟨rfl, rfl, rfl, rfl, rfl, rfl, rfl, rfl, rfl, rfl, rfl, rfl, rfl, rfl⟩

/-- Claim C3 (counterexample). The normalizer neither title-cases nor trims:
`"china"` and `"China"` map to different identifiers, and `" china"` does
not map to `"China"`. -/
theorem c3_counterexample :
    format_name_to_ont ("china".toList) ≠ format_name_to_ont ("China".toList) ∧
    format_name_to_ont (" china".toList) ≠ "China".toList := by
  refine ⟨?_, ?_⟩ <;> decide

/-- Claim C3 (amended). `format_name_to_ont` replaces each space character
with an underscore and leaves every other character (letter case included)
unchanged; it does not trim, so only variants agreeing after
space-to-underscore replacement share an identifier. -/
theorem c3_normalizer_characterization : ∀ s : List Char,
    format_name_to_ont s = s.map (fun c => if c = ' ' then '_' else c) :=
  format_name_to_ont_eq_map

/-- Claim C9. Normalization is idempotent. -/
theorem c9_normalize_idempotent : ∀ s : List Char,
    format_name_to_ont (format_name_to_ont s) = format_name_to_ont s := by
  intro s
  rw [format_name_to_ont_eq_map, format_name_to_ont_eq_map, List.map_map]
  refine List.map_congr_left ?_
  intro c _
  by_cases hc : c = ' ' <;> simp [hc, Function.comp]

/-- Claim C10. `get_first_num` is total by construction and returns `none`
exactly when its input contains no digit. -/
theorem c10_get_first_num_none_iff : ∀ s : List Char,
    get_first_num s = none ↔ ∀ c ∈ s, c.isDigit = false := by
  intro s
  constructor
  · intro h c hc
    by_contra hd0
    have hd : c.isDigit = true := by simpa using hd0
    have hne : s.dropWhile (fun c => !c.isDigit) ≠ [] := by
      intro hempty
      rw [List.dropWhile_eq_nil_iff] at hempty
      simpa [hd] using hempty c hc
    obtain ⟨a, t, hat⟩ := List.exists_cons_of_ne_nil hne
    have ha : a.isDigit = true := by
      have := dropWhile_headD_false (fun c => !c.isDigit) s hne
      rw [hat] at this
      simpa using this
    have hsome := matchNum_isSome_of_digit ',' '.' a t ha
    rw [Option.isSome_iff_exists] at hsome
    obtain ⟨m, hm⟩ := hsome
    rw [get_first_num] at h
    simp only [hat, List.isEmpty_cons, hm] at h
    cases h
  · intro h
    have hempty : s.dropWhile (fun c => !c.isDigit) = [] := by
      rw [List.dropWhile_eq_nil_iff]
      intro c hc
      simp [h c hc]
    rw [get_first_num]
    simp [hempty]

/-- Minimality of `findIdx?`: a satisfying index bounds the found index. -/
theorem findIdx?_min {α : Type} (f : α → Bool) :
    ∀ (l : List α) (k i : ℕ) (d : α), i < l.length → f (l.getD i d) = true →
      ∃ j, j ≤ k + i ∧ l.findIdx? f k = some j := by
  intro l
  induction l with
  | nil => intro k i d h hf; simp at h
  | cons a t ih =>
    intro k i d h hf
    by_cases ha : f a = true
    · exact ⟨k, Nat.le_add_right k i, by rw [List.findIdx?_cons]; simp [ha]⟩
    · cases i with
      | zero => rw [List.getD_cons_zero] at hf; exact absurd hf ha
      | succ i =>
        have h2 : i < t.length := by simpa using h
        have hf2 : f (t.getD i d) = true := by rw [List.getD_cons_succ] at hf; exact hf
        obtain ⟨j, hj, hfind⟩ := ih (k + 1) i d h2 hf2
        refine ⟨j, by omega, ?_⟩
        rw [List.findIdx?_cons, if_neg ha]
        exact hfind

theorem pyStrip_cons_space (c : Char) (s : List Char) (hc : isPySpace c = true) :
    pyStrip (c :: s) = pyStrip s := by
  unfold pyStrip
  rw [List.dropWhile_cons_of_pos hc]

theorem pyStrip_concat_space (c : Char) (s : List Char) (hc : isPySpace c = true) :
    pyStrip (s ++ [c]) = pyStrip s := by
  unfold pyStrip
  rw [List.dropWhile_append]
  by_cases h : (s.dropWhile isPySpace).isEmpty
  · rw [if_pos h]
    have h2 : s.dropWhile isPySpace = [] := by simpa [List.isEmpty_iff] using h
    rw [h2]
    simp [List.dropWhile_cons_of_pos hc]
  · rw [if_neg h, List.reverse_append]
    simp only [List.reverse_cons, List.reverse_nil, List.nil_append, List.singleton_append]
    rw [List.dropWhile_cons_of_pos hc]

/-- `collapseSpaces` keeps the head character of a nonempty list. -/
theorem collapseSpaces_head : ∀ (t : List Char) (b : Char),
    (collapseSpaces (b :: t)).head? = some b := by
  intro t
  induction t with
  | nil => intro b; rfl
  | cons c t ih =>
    intro b
    by_cases h : b = ' ' ∧ c = ' '
    · obtain ⟨hb, hc⟩ := h
      subst hb; subst hc
      rw [show collapseSpaces (' ' :: ' ' :: t) = collapseSpaces (' ' :: t) from by
        simp [collapseSpaces]]
      exact ih ' '
    · rw [show collapseSpaces (b :: c :: t) = b :: collapseSpaces (c :: t) from by
        simp [collapseSpaces, h]]
      rfl

theorem noDoubleSpace_collapseSpaces : ∀ (n : ℕ) (l : List Char), l.length ≤ n →
    noDoubleSpace (collapseSpaces l) = true := by
  intro n
  induction n with
  | zero =>
    intro l h
    have : l = [] := List.length_eq_zero.mp (Nat.le_zero.mp h)
    subst this; rfl
  | succ n ih =>
    intro l h
    match l with
    | [] => rfl
    | [c] => rfl
    | a :: b :: t =>
      have hbt : (b :: t).length ≤ n := by simpa using h
      by_cases hab : a = ' ' ∧ b = ' '
      · rw [show collapseSpaces (a :: b :: t) = collapseSpaces (b :: t) from by
          simp [collapseSpaces, hab.1, hab.2]]
        exact ih (b :: t) hbt
      · rw [show collapseSpaces (a :: b :: t) = a :: collapseSpaces (b :: t) from by
          simp [collapseSpaces, hab]]
        have hhead := collapseSpaces_head t b
        cases hX : collapseSpaces (b :: t) with
        | nil => rw [hX] at hhead; cases hhead
        | cons x xs =>
          rw [hX] at hhead
          have hxb : x = b := by simpa using hhead
          subst hxb
          have hrest : noDoubleSpace (x :: xs) = true := by
            rw [← hX]; exact ih (x :: t) hbt
          rw [show noDoubleSpace (a :: x :: xs) =
              (!(a = ' ' && x = ' ') && noDoubleSpace (x :: xs)) from rfl]
          rw [hrest]
          simp only [Bool.and_true]
          by_cases ha : a = ' '
          · have hb2 : ¬ x = ' ' := fun hx => hab ⟨ha, hx⟩
            simp [ha, hb2]
          · simp [ha]

/-- Claim C4 (counterexample). The preprocessing collapses only runs of the
space character: a tab run inside the question is kept, where the claim
requires every internal whitespace run to become one space. -/
theorem c4_counterexample :
    qna_normalize ("Who is\t\tBob?".toList) ≠
      normalize_question_claim ("Who is\t\tBob?".toList) ∧
    normalize_question_claim ("Who is\t\tBob?".toList) = "Who is Bob?".toList ∧
    qna_normalize ("Who is\t\tBob?".toList) = "Who is\t\tBob?".toList := by
  refine ⟨?_, ?_, ?_⟩ <;> decide

/-- Claim C4 (amended). `qna` trims the question, collapses internal runs of
the space character to one space (other whitespace is preserved), and then
tests the `QUESTIONS` patterns in list order, answering with the first match:
the normalized question is invariant under added surrounding whitespace and
contains no double space, and whenever the pattern at index `i` matches, the
routed index is at most `i`; in particular a question also matching any of
the ten specific patterns preceding the catch-all `Who is X?` (index 10) is
never routed to the catch-all. -/
theorem c4_routing_first_match :
    (∀ c s, isPySpace c = true → qna_normalize (c :: s) = qna_normalize s ∧
       qna_normalize (s ++ [c]) = qna_normalize s) ∧
    (∀ s, noDoubleSpace (qna_normalize s) = true) ∧
    (∀ s i d, i < QUESTIONS.length → qmatches (QUESTIONS.getD i d) (qna_normalize s) = true →
       ∃ j, j ≤ i ∧ qna_route s = some j) ∧
    (∀ s i d, i < 10 → qmatches (QUESTIONS.getD i d) (qna_normalize s) = true →
       ∃ j, j < 10 ∧ qna_route s = some j) := by
  have hroute : ∀ s i d, i < QUESTIONS.length →
      qmatches (QUESTIONS.getD i d) (qna_normalize s) = true →
      ∃ j, j ≤ i ∧ qna_route s = some j := by
    intro s i d hi hm
    obtain ⟨j, hj, hfind⟩ :=
      findIdx?_min (fun p => qmatches p (qna_normalize s)) QUESTIONS 0 i d hi hm
    exact ⟨j, by omega, hfind⟩
  refine ⟨?_, ?_, hroute, ?_⟩
  · intro c s hc
    constructor
    · unfold qna_normalize
      rw [pyStrip_cons_space c s hc]
    · unfold qna_normalize
      rw [pyStrip_concat_space c s hc]
  · intro s
    exact noDoubleSpace_collapseSpaces (pyStrip s).length (pyStrip s) le_rfl
  · intro s i d hi hm
    have hlen : QUESTIONS.length = 14 := rfl
    obtain ⟨j, hj, hfind⟩ := hroute s i d (by omega) hm
    exact ⟨j, by omega, hfind⟩

/-- Witness for C4: the question `Who is the president of France?` matches
both the specific pattern 0 and the catch-all, and is routed below the
catch-all index. -/
theorem c4_witness :
    ∃ j, j < 10 ∧ qna_route ("Who is the president of France?".toList) = some j :=
  c4_routing_first_match.2.2.2 ("Who is the president of France?".toList) 0
    (QPat.cap1 [] []) (by decide) (by decide)

/-- `check_born_country` is the first candidate, links before texts, that is
a registry member. -/
theorem check_born_country_eq_find (R : List (List Char)) (born : Option BornField) :
    check_born_country R born = (bornCandidates born).find? (fun c => decide (c ∈ R)) := by
  cases born with
  | none => rfl
  | some b =>
    rw [show bornCandidates (some b) = linkCandidates b ++ textCandidates b from rfl,
      List.find?_append]
    unfold check_born_country
    cases h : (linkCandidates b).find? (fun c => decide (c ∈ R)) <;> simp [Option.or, h]

/-- Claim C5 (counterexample). With the string `None` in the registry and a
`Born` link resolving to it, the candidate is a registry member, yet
`parse_person` drops the fact: its guard `not in (None, "None")` also
filters the resolved string `"None"`. -/
theorem c5_counterexample :
    ("None".toList ∈ bornCandidates (some ⟨["x/None".toList], []⟩)) ∧
    ("None".toList ∈ (["None".toList] : List (List Char))) ∧
    check_born_country (["None".toList]) (some ⟨["x/None".toList], []⟩) =
      some ("None".toList) ∧
    parse_person_birthPlace (["None".toList]) (some ⟨["x/None".toList], []⟩) = none := by
  refine ⟨?_, ?_, ?_, ?_⟩ <;> decide

/-- Claim C5 (amended). For every registry and `Born` cell: resolution fails
exactly when no candidate (link target tail or normalized letter-bearing text
fragment) is in the registry; a resolved country is always a registry member
drawn from the candidates; every asserted birthPlace object is the
normalization of a registry member; and when some candidate is in the
registry a birthPlace triple is asserted unless the resolved identifier is
the literal string `None` (filtered by the `not in (None, "None")` guard). -/
theorem c5_birth_country_gating : ∀ (R : List (List Char)) (born : Option BornField),
    (check_born_country R born = none ↔ ∀ c ∈ bornCandidates born, c ∉ R) ∧
    (∀ c, check_born_country R born = some c → c ∈ R ∧ c ∈ bornCandidates born) ∧
    (∀ c, parse_person_birthPlace R born = some c →
       ∃ c2, c2 ∈ R ∧ c2 ∈ bornCandidates born ∧ c = format_name_to_ont c2) ∧
    ((∃ c ∈ bornCandidates born, c ∈ R) →
       check_born_country R born ≠ some ("None".toList) →
       (parse_person_birthPlace R born).isSome = true) := by
  intro R born
  have hmem : ∀ c, check_born_country R born = some c → c ∈ R ∧ c ∈ bornCandidates born := by
    intro c h
    rw [check_born_country_eq_find] at h
    exact ⟨by simpa using List.find?_some h, List.mem_of_find?_eq_some h⟩
  refine ⟨?_, hmem, ?_, ?_⟩
  · rw [check_born_country_eq_find, List.find?_eq_none]
    simp
  · intro c h
    cases hcb : check_born_country R born with
    | none =>
      unfold parse_person_birthPlace at h
      rw [hcb] at h
      cases h
    | some c2 =>
      have hp : parse_person_birthPlace R born =
          if c2 = "None".toList then none else some (format_name_to_ont c2) := by
        unfold parse_person_birthPlace
        rw [hcb]
      rw [hp] at h
      by_cases hn : c2 = "None".toList
      · rw [if_pos hn] at h; cases h
      · rw [if_neg hn] at h
        obtain ⟨hR, hcand⟩ := hmem c2 hcb
        exact ⟨c2, hR, hcand, (Option.some_inj.mp h).symm⟩
  · intro hex hnone
    have hsome : (check_born_country R born).isSome = true := by
      rw [check_born_country_eq_find, List.find?_isSome]
      obtain ⟨c, hc, hR⟩ := hex
      exact ⟨c, hc, by simpa using hR⟩
    obtain ⟨c0, hc0⟩ := Option.isSome_iff_exists.mp hsome
    have hn : ¬ c0 = "None".toList := fun he => hnone (he ▸ hc0)
    have hp : parse_person_birthPlace R born =
        if c0 = "None".toList then none else some (format_name_to_ont c0) := by
      unfold parse_person_birthPlace
      rw [hc0]
    rw [hp, if_neg hn]
    rfl

/-- Witness for C5: a registry-confirmed link candidate produces the
birthPlace assertion. -/
theorem c5_witness :
    (parse_person_birthPlace (["France".toList])
      (some ⟨["/wiki/France".toList], []⟩)).isSome = true :=
  (c5_birth_country_gating (["France".toList])
      (some ⟨["/wiki/France".toList], []⟩)).2.2.2 (by decide) (by decide)

/-- Claim C6. Enqueue deduplication: the initial state satisfies the queue
invariant; enqueueing is a no-op when the url is visited and otherwise marks
the url visited and appends exactly one task; enqueueing the same url twice
adds exactly one task with that url; and the invariant that no two queued
tasks share a url (each being marked visited) is preserved. -/
theorem c6_enqueue_dedup :
    QueueInv crawlerInit ∧
    ∀ (st : CrawlerState) (url : List Char) (h : HandlerTag)
      (m : List (List Char × List Char)),
      (url ∈ st.visited → enqueue_page st url h m = st) ∧
      (url ∉ st.visited →
         (enqueue_page st url h m).queue = st.queue ++ [⟨url, h, m⟩] ∧
         (enqueue_page st url h m).visited = url :: st.visited) ∧
      (∀ (h2 : HandlerTag) (m2 : List (List Char × List Char)),
         urlCount (enqueue_page (enqueue_page st url h m) url h2 m2).queue url =
           urlCount st.queue url + (if url ∈ st.visited then 0 else 1)) ∧
      (QueueInv st → QueueInv (enqueue_page st url h m)) := by
  constructor
  · exact ⟨List.nodup_nil, by intro t ht; cases ht⟩
  intro st url h m
  refine ⟨?_, ?_, ?_, ?_⟩
  · intro hv
    simp [enqueue_page, hv]
  · intro hv
    simp [enqueue_page, hv]
  · intro h2 m2
    by_cases hv : url ∈ st.visited
    · simp [enqueue_page, hv]
    · have h1 : enqueue_page st url h m =
          { queue := st.queue ++ [⟨url, h, m⟩], visited := url :: st.visited } := by
        simp [enqueue_page, hv]
      rw [h1]
      rw [show enqueue_page
            { queue := st.queue ++ [⟨url, h, m⟩], visited := url :: st.visited } url h2 m2 =
          { queue := st.queue ++ [⟨url, h, m⟩], visited := url :: st.visited } from by
        simp [enqueue_page]]
      simp [urlCount, List.filter_append, hv]
  · intro hInv
    by_cases hv : url ∈ st.visited
    · rw [show enqueue_page st url h m = st from by simp [enqueue_page, hv]]
      exact hInv
    · have h1 : enqueue_page st url h m =
          { queue := st.queue ++ [⟨url, h, m⟩], visited := url :: st.visited } := by
        simp [enqueue_page, hv]
      rw [h1]
      obtain ⟨hnd, hvis⟩ := hInv
      constructor
      · rw [List.map_append]
        refine List.Nodup.append hnd (List.nodup_singleton _) ?_
        intro x hx hx2
        have hxu : x = url := by simpa using hx2
        subst hxu
        obtain ⟨t, ht, htu⟩ := List.mem_map.mp hx
        exact hv (htu ▸ hvis t ht)
      · intro t ht
        rcases List.mem_append.mp ht with h3 | h3
        · exact List.mem_cons_of_mem url (hvis t h3)
        · have : t = ⟨url, h, m⟩ := by simpa using h3
          rw [this]
          exact List.mem_cons_self url _

/-- Witness for C6: enqueueing a fresh url from the initial state pushes
exactly one task. -/
theorem c6_witness :
    (enqueue_page crawlerInit ("u".toList) HandlerTag.startTag []).queue =
      crawlerInit.queue ++ [⟨"u".toList, HandlerTag.startTag, []⟩] :=
  ((c6_enqueue_dedup.2 crawlerInit ("u".toList) HandlerTag.startTag []).2.1
    (by decide)).1

/-- Claim C7. Scheduler failure isolation: one loop step returns nothing
exactly when the queue is empty (loop exit); when the handler of the popped
task raises, the step still produces a continuing state, with the task
removed and the url and error logged; a loop on an empty queue is the
identity; and after a failing task the loop simply continues on the rest. -/
theorem c7_failure_isolation :
    ∀ (H : CrawlerState → CrawlTask → HandlerOutcome) (st : CrawlerState)
      (log : List LogEntry),
      (run_step H st log = none ↔ st.queue = []) ∧
      (∀ t rest st2 e, st.queue = t :: rest →
         H { st with queue := rest } t = .err st2 e →
         run_step H st log = some (st2, log ++ [⟨t.url, e⟩])) ∧
      (∀ f, st.queue = [] → run_loop H f st log = (st, log)) ∧
      (∀ f t rest st2 e, st.queue = t :: rest →
         H { st with queue := rest } t = .err st2 e →
         run_loop H (f + 1) st log = run_loop H f st2 (log ++ [⟨t.url, e⟩])) := by
  intro H st log
  have hstep : ∀ t rest st2 e, st.queue = t :: rest →
      H { st with queue := rest } t = .err st2 e →
      run_step H st log = some (st2, log ++ [⟨t.url, e⟩]) := by
    intro t rest st2 e hq hH
    have h3 : run_step H st log =
        match H { st with queue := rest } t with
        | .ok st3 => some (st3, log)
        | .err st3 e3 => some (st3, log ++ [⟨t.url, e3⟩]) := by
      unfold run_step
      rw [hq]
    rw [h3, hH]
  have hnone : run_step H st log = none ↔ st.queue = [] := by
    constructor
    · intro h2
      cases hq : st.queue with
      | nil => rfl
      | cons t rest =>
        have h3 : run_step H st log =
            match H { st with queue := rest } t with
            | .ok st3 => some (st3, log)
            | .err st3 e3 => some (st3, log ++ [⟨t.url, e3⟩]) := by
          unfold run_step
          rw [hq]
        rw [h3] at h2
        cases hH : H { st with queue := rest } t <;> rw [hH] at h2 <;> cases h2
    · intro h2
      unfold run_step
      rw [h2]
  refine ⟨hnone, hstep, ?_, ?_⟩
  · intro f h2
    cases f with
    | zero => rfl
    | succ f =>
      unfold run_loop
      rw [hnone.mpr h2]
  · intro f t rest st2 e hq hH
    show (match run_step H st log with
      | none => (st, log)
      | some (st3, log3) => run_loop H f st3 log3) = run_loop H f st2 (log ++ [⟨t.url, e⟩])
    rw [hstep t rest st2 e hq hH]

/-- Witness for C7: a handler that raises yields a logged continuing step,
not an aborted crawl. -/
theorem c7_witness :
    run_step (fun st _ => HandlerOutcome.err st ("E".toList))
      { queue := [⟨"u".toList, HandlerTag.startTag, []⟩], visited := ["u".toList] } [] =
    some ({ queue := [], visited := ["u".toList] },
      [⟨"u".toList, "E".toList⟩]) :=
  (c7_failure_isolation (fun st _ => HandlerOutcome.err st ("E".toList))
      { queue := [⟨"u".toList, HandlerTag.startTag, []⟩], visited := ["u".toList] } []).2.1
    ⟨"u".toList, HandlerTag.startTag, []⟩ [] { queue := [], visited := ["u".toList] }
    ("E".toList) rfl rfl

/-- `takeWhile`/`dropWhile` split a list at the first failing character. -/
theorem takeWhile_no_stop (p : Char → Bool) :
    ∀ (u : List Char) (x : Char) (v : List Char), (∀ c ∈ u, p c = true) → p x = false →
      (u ++ x :: v).takeWhile p = u ∧ (u ++ x :: v).dropWhile p = x :: v := by
  intro u
  induction u with
  | nil =>
    intro x v _ hx
    simp [List.takeWhile_cons, List.dropWhile_cons, hx]
  | cons a u ih =>
    intro x v hu hx
    have ha : p a = true := hu a (List.mem_cons_self a u)
    have h2 := ih x v (fun c hc => hu c (List.mem_cons_of_mem a hc)) hx
    simp [List.takeWhile_cons, List.dropWhile_cons, ha, h2.1, h2.2]

theorem uriOk_no_gt {u : List Char} (hu : uriOk u = true) :
    ∀ c ∈ u, (fun c => !decide (c = '>')) c = true := by
  intro c hc
  have := (List.all_eq_true.mp hu) c hc
  simp only [Bool.and_eq_true, decide_eq_true_eq] at this
  simpa using this.1

theorem uriOk_no_nl {u : List Char} (hu : uriOk u = true) : ∀ c ∈ u, ¬ c = '\n' := by
  intro c hc
  have := (List.all_eq_true.mp hu) c hc
  simp only [Bool.and_eq_true, decide_eq_true_eq] at this
  exact this.2

theorem parseUriTok_roundtrip (u r : List Char) (hu : uriOk u = true) :
    parseUriTok ('<' :: u ++ '>' :: r) = some (u, r) := by
  obtain ⟨ht, hd⟩ :=
    takeWhile_no_stop (fun c => !decide (c = '>')) u '>' r (uriOk_no_gt hu) (by simp)
  simp [parseUriTok, ht, hd]

/-- Manual unfolding of `ntUnescape` on a cons cell (the generated equations
split on the tail shape, which appended arguments do not expose). -/
theorem ntUnescape_cons (c : Char) (s : List Char) :
    ntUnescape (c :: s) =
      if c = '"' then some ([], s)
      else if c = '\\' then
        (match s with
         | [] => none
         | d :: s2 =>
           match unescChar d with
           | none => none
           | some e =>
             match ntUnescape s2 with
             | none => none
             | some (t, r) => some (e :: t, r))
      else
        match ntUnescape s with
        | none => none
        | some (t, r) => some (c :: t, r) := by
  cases s <;> rfl

theorem ntUnescape_esc (d : Char) (s2 : List Char) :
    ntUnescape ('\\' :: d :: s2) =
      match unescChar d with
      | none => none
      | some e =>
        match ntUnescape s2 with
        | none => none
        | some (t, r) => some (e :: t, r) := rfl

/-- Unescaping inverts escaping, leaving the text after the closing quote. -/
theorem ntUnescape_ntEscape : ∀ (s r : List Char),
    ntUnescape (ntEscape s ++ '"' :: r) = some (s, r) := by
  intro s
  induction s with
  | nil =>
    intro r
    rw [show ntEscape [] = [] from rfl, List.nil_append, ntUnescape_cons, if_pos rfl]
  | cons c s ih =>
    intro r
    rw [show ntEscape (c :: s) = ntEscapeChar c ++ ntEscape s from by simp [ntEscape]]
    by_cases h1 : c = '\\'
    · subst h1
      rw [show ntEscapeChar '\\' = ['\\', '\\'] from rfl]
      simp only [List.cons_append, List.nil_append, List.append_assoc]
      rw [ntUnescape_esc,
        show unescChar '\\' = some '\\' from rfl, ih r]
    by_cases h2 : c = '"'
    · subst h2
      rw [show ntEscapeChar '"' = ['\\', '"'] from rfl]
      simp only [List.cons_append, List.nil_append, List.append_assoc]
      rw [ntUnescape_esc,
        show unescChar '"' = some '"' from rfl, ih r]
    by_cases h3 : c = '\n'
    · subst h3
      rw [show ntEscapeChar '\n' = ['\\', 'n'] from rfl]
      simp only [List.cons_append, List.nil_append, List.append_assoc]
      rw [ntUnescape_esc,
        show unescChar 'n' = some '\n' from rfl, ih r]
    by_cases h4 : c = '\r'
    · subst h4
      rw [show ntEscapeChar '\r' = ['\\', 'r'] from rfl]
      simp only [List.cons_append, List.nil_append, List.append_assoc]
      rw [ntUnescape_esc,
        show unescChar 'r' = some '\r' from rfl, ih r]
    by_cases h5 : c = '\t'
    · subst h5
      rw [show ntEscapeChar '\t' = ['\\', 't'] from rfl]
      simp only [List.cons_append, List.nil_append, List.append_assoc]
      rw [ntUnescape_esc,
        show unescChar 't' = some '\t' from rfl, ih r]
    · rw [show ntEscapeChar c = [c] from by simp [ntEscapeChar, h1, h2, h3, h4, h5]]
      simp only [List.cons_append, List.nil_append, List.append_assoc]
      rw [ntUnescape_cons, if_neg h2, if_neg h1, ih r]

theorem ntEscape_all_no_nl (s : List Char) :
    (ntEscape s).all (fun c => !decide (c = '\n')) = true := by
  induction s with
  | nil => rfl
  | cons c s ih =>
    rw [show ntEscape (c :: s) = ntEscapeChar c ++ ntEscape s from by simp [ntEscape],
      List.all_append, ih]
    rw [Bool.and_true]
    by_cases h1 : c = '\\'
    · subst h1; rfl
    by_cases h2 : c = '"'
    · subst h2; simp [ntEscapeChar, h1]
    by_cases h3 : c = '\n'
    · subst h3; simp [ntEscapeChar, h1, h2]
    by_cases h4 : c = '\r'
    · subst h4; simp [ntEscapeChar, h1, h2, h3]
    by_cases h5 : c = '\t'
    · subst h5; simp [ntEscapeChar, h1, h2, h3, h4]
    · rw [show ntEscapeChar c = [c] from by simp [ntEscapeChar, h1, h2, h3, h4, h5]]
      simp [h3]

theorem uriOk_all_no_nl {u : List Char} (hu : uriOk u = true) :
    u.all (fun c => !decide (c = '\n')) = true := by
  rw [List.all_eq_true]
  intro c hc
  simpa using uriOk_no_nl hu c hc

/-- A serialized line contains no newline when its triple is well formed. -/
theorem ntLine_all_no_nl (t : NTTriple) (ht : tripleOk t = true) :
    (ntLine t).all (fun c => !decide (c = '\n')) = true := by
  have hparts : (uriOk t.subj = true ∧ uriOk t.pred = true) ∧ nodeOk t.obj = true := by
    simpa [tripleOk, Bool.and_eq_true] using ht
  obtain ⟨⟨hs, hp⟩, ho⟩ := hparts
  have hobj : (ntNodeStr t.obj).all (fun c => !decide (c = '\n')) = true := by
    cases hobj : t.obj with
    | uri s =>
      rw [hobj] at ho
      simp only [ntNodeStr, List.all_cons, List.all_append]
      rw [uriOk_all_no_nl (by simpa [nodeOk] using ho)]
      rfl
    | lit body dt =>
      rw [hobj] at ho
      cases dt with
      | none =>
        simp only [ntNodeStr, List.all_cons, List.all_append]
        rw [ntEscape_all_no_nl]
        rfl
      | some d =>
        have hd : d.all (fun c => !decide (c = '\n')) = true :=
          uriOk_all_no_nl (show uriOk d = true by simpa [nodeOk] using ho)
        simp only [ntNodeStr, List.all_cons, List.all_append]
        rw [ntEscape_all_no_nl, hd]
        rfl
  simp only [ntLine, List.all_cons, List.all_append]
  rw [uriOk_all_no_nl hs, uriOk_all_no_nl hp, hobj]
  rfl

theorem parseObjTok_roundtrip (o : NTNode) (w : List Char) (ho : nodeOk o = true) :
    parseObjTok (ntNodeStr o ++ ' ' :: w) = some (o, ' ' :: w) := by
  cases o with
  | uri s =>
    have hu : uriOk s = true := by simpa [nodeOk] using ho
    have h1 : ntNodeStr (NTNode.uri s) ++ ' ' :: w = '<' :: (s ++ '>' :: ' ' :: w) := by
      simp [ntNodeStr]
    rw [h1]
    have h2 := parseUriTok_roundtrip s (' ' :: w) hu
    rw [show ('<' :: s ++ '>' :: ' ' :: w) = '<' :: (s ++ '>' :: ' ' :: w) from by
      simp] at h2
    simp [parseObjTok, h2]
  | lit body dt =>
    cases dt with
    | none =>
      have h1 : ntNodeStr (NTNode.lit body none) ++ ' ' :: w =
          '"' :: (ntEscape body ++ '"' :: (' ' :: w)) := by
        simp [ntNodeStr]
      rw [h1]
      simp [parseObjTok, ntUnescape_ntEscape body (' ' :: w)]
    | some d =>
      have hd : uriOk d = true := by simpa [nodeOk] using ho
      have h1 : ntNodeStr (NTNode.lit body (some d)) ++ ' ' :: w =
          '"' :: (ntEscape body ++ '"' :: ('^' :: '^' :: '<' :: (d ++ '>' :: ' ' :: w))) := by
        simp [ntNodeStr]
      rw [h1]
      have h2 := parseUriTok_roundtrip d (' ' :: w) hd
      rw [show ('<' :: d ++ '>' :: ' ' :: w) = '<' :: (d ++ '>' :: ' ' :: w) from by
        simp] at h2
      simp [parseObjTok, ntUnescape_ntEscape body, h2]

/-- One serialized line parses back to its triple. -/
theorem ntParseLine_roundtrip (t : NTTriple) (ht : tripleOk t = true) :
    ntParseLine (ntLine t) = some t := by
  have hparts : (uriOk t.subj = true ∧ uriOk t.pred = true) ∧ nodeOk t.obj = true := by
    simpa [tripleOk, Bool.and_eq_true] using ht
  obtain ⟨⟨hs, hp⟩, ho⟩ := hparts
  have h1 : ntLine t = '<' :: t.subj ++ '>' ::
      (' ' :: ('<' :: t.pred ++ '>' :: (' ' :: (ntNodeStr t.obj ++ ' ' :: ['.'])))) := by
    simp [ntLine]
  have hu1 := parseUriTok_roundtrip t.subj
    (' ' :: ('<' :: t.pred ++ '>' :: (' ' :: (ntNodeStr t.obj ++ ' ' :: ['.'])))) hs
  have hu2 := parseUriTok_roundtrip t.pred (' ' :: (ntNodeStr t.obj ++ ' ' :: ['.'])) hp
  have hobj := parseObjTok_roundtrip t.obj ['.'] ho
  rw [ntParseLine, h1]
  simp only [hu1, hu2, hobj]
  rfl

/-- The fuel-bounded file parse inverts serialization when the fuel covers
the file length. -/
theorem parseNTFuel_serialize : ∀ (T : List NTTriple) (f : ℕ),
    (∀ t ∈ T, tripleOk t = true) → (nt_serialize T).length ≤ f →
    parseNTFuel f (nt_serialize T) = some T := by
  intro T
  induction T with
  | nil =>
    intro f _ _
    cases f <;> rfl
  | cons t T ih =>
    intro f hok hlen
    have hok_t : tripleOk t = true := hok t (List.mem_cons_self t T)
    have hok_T : ∀ u ∈ T, tripleOk u = true := fun u hu => hok u (List.mem_cons_of_mem t hu)
    have hser : nt_serialize (t :: T) = ntLine t ++ '\n' :: nt_serialize T := by
      simp [nt_serialize]
    have hnl : ∀ c ∈ ntLine t, (fun x => decide (x ≠ '\n')) c = true := by
      intro c hc
      have := List.all_eq_true.mp (ntLine_all_no_nl t hok_t) c hc
      simpa [decide_not] using this
    obtain ⟨htake, hdrop⟩ :=
      takeWhile_no_stop (fun x => decide (x ≠ '\n')) (ntLine t) '\n' (nt_serialize T)
        hnl (by simp)
    obtain ⟨f2, rfl⟩ : ∃ f2, f = f2 + 1 := by
      refine ⟨f - 1, ?_⟩
      rw [hser] at hlen
      simp only [List.length_append, List.length_cons] at hlen
      omega
    have hlen2 : (nt_serialize T).length ≤ f2 := by
      rw [hser] at hlen
      simp only [List.length_append, List.length_cons] at hlen
      omega
    obtain ⟨A2, hA⟩ : ∃ A2, ntLine t = '<' :: A2 :=
      ⟨t.subj ++ '>' :: ' ' :: '<' :: (t.pred ++ '>' :: ' ' :: (ntNodeStr t.obj ++ [' ', '.'])),
       by simp [ntLine]⟩
    have hstep : parseNTFuel (f2 + 1) (ntLine t ++ '\n' :: nt_serialize T) =
        match ntParseLine (ntLine t) with
        | none => none
        | some tr =>
          match parseNTFuel f2 (nt_serialize T) with
          | none => none
          | some ts => some (tr :: ts) := by
      rw [hA] at htake hdrop ⊢
      simp only [List.cons_append] at htake hdrop ⊢
      rw [parseNTFuel]
      rw [htake, hdrop]
      rw [if_neg (by simp : ¬ (('<' :: A2).isEmpty = true))]
      rfl
    rw [hser, hstep, ntParseLine_roundtrip t hok_t, ih f2 hok_T hlen2]

/-- Claim C8 (counterexample). A triple whose subject URI contains `>` breaks
the line notation: the serialized file does not parse back at all (so it
certainly does not reload as an equal set). -/
theorem c8_counterexample :
    nt_parse (nt_serialize [⟨"a>b".toList, "p".toList, .uri ("o".toList)⟩]) = none := by
  decide

/-- Claim C8 (amended). For every triple list whose URIs contain no `>` and
no newline (literal objects arbitrary, quoted and escaped), parsing the
serialized one-triple-per-line file returns exactly the original list, and
hence a set equal to it. -/
theorem c8_roundtrip : ∀ T : List NTTriple, (∀ t ∈ T, tripleOk t = true) →
    nt_parse (nt_serialize T) = some T ∧
    ∀ L, nt_parse (nt_serialize T) = some L → ∀ x, x ∈ L ↔ x ∈ T := by
  intro T hok
  have h := parseNTFuel_serialize T (nt_serialize T).length hok le_rfl
  refine ⟨h, ?_⟩
  intro L hL x
  rw [show L = T from Option.some_inj.mp (hL.symm.trans h)]

/-- Witness for C8: a three-triple set with a quoted literal containing a
quote and a backslash, and a datatype-tagged literal, reloads exactly. -/
theorem c8_witness :
    nt_parse (nt_serialize [
      ⟨"http://e/a".toList, "http://e/p".toList, .lit ("say \"hi\" \\ ok".toList) none⟩,
      ⟨"a".toList, "b".toList, .uri ("c".toList)⟩,
      ⟨"a".toList, "d".toList,
        .lit ("83".toList) (some ("http://www.w3.org/2001/XMLSchema#integer".toList))⟩]) =
    some [
      ⟨"http://e/a".toList, "http://e/p".toList, .lit ("say \"hi\" \\ ok".toList) none⟩,
      ⟨"a".toList, "b".toList, .uri ("c".toList)⟩,
      ⟨"a".toList, "d".toList,
        .lit ("83".toList) (some ("http://www.w3.org/2001/XMLSchema#integer".toList))⟩] :=
  (c8_roundtrip [
      ⟨"http://e/a".toList, "http://e/p".toList, .lit ("say \"hi\" \\ ok".toList) none⟩,
      ⟨"a".toList, "b".toList, .uri ("c".toList)⟩,
      ⟨"a".toList, "d".toList,
        .lit ("83".toList) (some ("http://www.w3.org/2001/XMLSchema#integer".toList))⟩]
    (by decide)).1
